import Mathlib

/-!
Verification of the `futures-mutex-exercise` single-threaded async mutex
(`src/unsync.rs`), as a shallow embedding.

The Rust code uses interior mutability (`Cell`) on a single thread; here the
mutex state is passed explicitly.  `T` is the protected payload type and `W`
is the type of wake handles (`LocalWaker` in the source, opaque here).
`thread::panicking()` is an input to the operations that consult it
(guard creation and guard drop), since it is ambient state of the caller.
-/

namespace FuturesMutex

/-- State of `Mutex<T>` (src/unsync.rs lines 12-17): `locked` and `poisoned`
bits, the waiter queue (`Cell<Vec<LocalWaker>>`, append at the end as
`Vec::push` does), and the protected `data`. -/
structure Mutex (T W : Type) where
  locked : Bool
  poisoned : Bool
  waiters : List W
  data : T
deriving DecidableEq

/-- `MutexGuard` (lines 128-131): in the state-passing embedding only the
captured `is_panicking` flag remains; the back-reference to the mutex is the
explicitly threaded state. -/
structure MutexGuard where
  is_panicking : Bool
deriving DecidableEq

/-- `LockResult<α> = Result<α, PoisonError<α>>`: both arms carry the payload. -/
inductive LockResult (α : Type) where
  | ok : α → LockResult α
  | poisonedErr : α → LockResult α
deriving DecidableEq

/-- `TryLockResult<α> = Result<α, TryLockError<α>>` flattened: success,
poison error carrying the payload, or would-block. -/
inductive TryLockResult (α : Type) where
  | ok : α → TryLockResult α
  | poisonedErr : α → TryLockResult α
  | wouldBlock : TryLockResult α
deriving DecidableEq

/-- `futures::task::Poll`. -/
inductive Poll (α : Type) where
  | ready : α → Poll α
  | pending : Poll α
deriving DecidableEq

/-- `Mutex::new` (lines 23-30): unlocked, unpoisoned, empty waiter queue. -/
def Mutex.new {T W : Type} (inner : T) : Mutex T W :=
  { locked := false, poisoned := false, waiters := [], data := inner }

/-- `Mutex::into_inner` (lines 32-41): consumes the mutex, surfacing poison
as an error that still carries the value. -/
def Mutex.into_inner {T W : Type} (s : Mutex T W) : LockResult T :=
  if s.poisoned then LockResult.poisonedErr s.data else LockResult.ok s.data

/-- `Mutex::is_poisoned` (lines 77-79). -/
def Mutex.is_poisoned {T W : Type} (s : Mutex T W) : Bool :=
  s.poisoned

/-- `Mutex::get_mut` (lines 81-88): the returned `&mut T` is modelled as the
current value; poison is surfaced as an error still carrying it. -/
def Mutex.get_mut {T W : Type} (s : Mutex T W) : LockResult T :=
  if s.poisoned then LockResult.poisonedErr s.data else LockResult.ok s.data

/-- `MutexGuard::new` (lines 133-141): sets `locked` to true and captures the
caller's current panicking flag. -/
def MutexGuard.new {T W : Type} (panicking : Bool) (s : Mutex T W) :
    MutexGuard × Mutex T W :=
  ({ is_panicking := panicking }, { s with locked := true })

/-- `Mutex::try_lock` (lines 64-75): fail fast with `WouldBlock` when held,
otherwise take the lock via `MutexGuard::new` and wrap in a poison error
exactly when `poisoned` is set. -/
def Mutex.try_lock {T W : Type} (panicking : Bool) (s : Mutex T W) :
    TryLockResult MutexGuard × Mutex T W :=
  if s.locked then (TryLockResult.wouldBlock, s)
  else
    let gs := MutexGuard.new panicking s
    if gs.2.poisoned then (TryLockResult.poisonedErr gs.1, gs.2)
    else (TryLockResult.ok gs.1, gs.2)

/-- `Mutex::poll_lock` (lines 48-62): when held, push the wake handle onto
the waiter queue and report `Pending`; otherwise behave as `try_lock`. -/
def Mutex.poll_lock {T W : Type} (lw : W) (panicking : Bool) (s : Mutex T W) :
    Poll (LockResult MutexGuard) × Mutex T W :=
  if s.locked then (Poll.pending, { s with waiters := s.waiters ++ [lw] })
  else
    let gs := MutexGuard.new panicking s
    if gs.2.poisoned then (Poll.ready (LockResult.poisonedErr gs.1), gs.2)
    else (Poll.ready (LockResult.ok gs.1), gs.2)

/-- `MutexAcquire` (lines 185-188): holds only a back-reference to the mutex,
which in the state-passing embedding is the threaded state, so the structure
is fieldless — there is no per-request progress state. -/
structure MutexAcquire where
deriving DecidableEq

/-- `Mutex::lock` (lines 45-47): constructs a `MutexAcquire`, touching no
mutex state. -/
def Mutex.lock {T W : Type} (s : Mutex T W) : MutexAcquire × Mutex T W :=
  ({}, s)

/-- `impl Future for MutexAcquire` (lines 190-195): polling simply delegates
to `poll_lock` on the referenced mutex. -/
def MutexAcquire.poll {T W : Type} (_a : MutexAcquire) (lw : W)
    (panicking : Bool) (s : Mutex T W) :
    Poll (LockResult MutexGuard) × Mutex T W :=
  Mutex.poll_lock lw panicking s

/-- `impl Drop for MutexGuard` (lines 156-169): clear `locked`; set
`poisoned` when the owner was not panicking at creation but is panicking
now; drain the waiter queue, returning the woken handles, and leave it
empty. -/
def MutexGuard.drop {T W : Type} (g : MutexGuard) (panicking : Bool)
    (s : Mutex T W) : Mutex T W × List W :=
  let s1 : Mutex T W := { s with locked := false }
  let s2 : Mutex T W :=
    if !g.is_panicking && panicking then { s1 with poisoned := true } else s1
  ({ s2 with waiters := [] }, s2.waiters)

/-!
System model: a mutex together with the multiset of live guards, driven by an
arbitrary interleaving of the public operations.  `dropGuardOp i` destroys the
`i`-th live guard (a no-op when no such guard exists).  Each acquire operation
takes the caller's current `thread::panicking()` flag as input.
-/

/-- One step of an interleaving: the public operations of the mutex. -/
inductive Op (W : Type) where
  | tryLockOp : Bool → Op W
  | pollLockOp : W → Bool → Op W
  | dropGuardOp : Nat → Bool → Op W
  | lockOp : Op W
  | isPoisonedOp : Op W
deriving DecidableEq

/-- A mutex plus the live guards produced by successful acquires. -/
structure Sys (T W : Type) where
  m : Mutex T W
  guards : List MutexGuard
deriving DecidableEq

/-- The system right after `Mutex::new`. -/
def Sys.init {T W : Type} (x : T) : Sys T W :=
  { m := Mutex.new x, guards := [] }

/-- Effect of one operation on the system state. A successful acquire (plain
or poison-wrapped) adds its guard to the live set; dropping a guard removes
it and applies the guard release protocol. -/
def sysStep {T W : Type} (s : Sys T W) (op : Op W) : Sys T W :=
  match op with
  | Op.tryLockOp p =>
    match Mutex.try_lock p s.m with
    | (TryLockResult.wouldBlock, m2) => { m := m2, guards := s.guards }
    | (TryLockResult.ok g, m2) => { m := m2, guards := g :: s.guards }
    | (TryLockResult.poisonedErr g, m2) => { m := m2, guards := g :: s.guards }
  | Op.pollLockOp lw p =>
    match Mutex.poll_lock lw p s.m with
    | (Poll.pending, m2) => { m := m2, guards := s.guards }
    | (Poll.ready (LockResult.ok g), m2) => { m := m2, guards := g :: s.guards }
    | (Poll.ready (LockResult.poisonedErr g), m2) =>
        { m := m2, guards := g :: s.guards }
  | Op.dropGuardOp i p =>
    match s.guards[i]? with
    | none => s
    | some g => { m := (MutexGuard.drop g p s.m).1, guards := s.guards.eraseIdx i }
  | Op.lockOp => { m := (Mutex.lock s.m).2, guards := s.guards }
  | Op.isPoisonedOp => s

/-- Run a whole interleaving. -/
def run {T W : Type} (ops : List (Op W)) (s : Sys T W) : Sys T W :=
  ops.foldl sysStep s

/-! Projection lemmas for the guard release protocol. -/

theorem drop_locked {T W : Type} (g : MutexGuard) (p : Bool) (s : Mutex T W) :
    (MutexGuard.drop g p s).1.locked = false := by
  simp only [MutexGuard.drop]
  split <;> rfl

theorem drop_waiters {T W : Type} (g : MutexGuard) (p : Bool) (s : Mutex T W) :
    (MutexGuard.drop g p s).1.waiters = [] := by
  simp only [MutexGuard.drop]

theorem drop_woken {T W : Type} (g : MutexGuard) (p : Bool) (s : Mutex T W) :
    (MutexGuard.drop g p s).2 = s.waiters := by
  simp only [MutexGuard.drop]
  split <;> rfl

theorem drop_poisoned {T W : Type} (g : MutexGuard) (p : Bool) (s : Mutex T W) :
    (MutexGuard.drop g p s).1.poisoned = (s.poisoned || (!g.is_panicking && p)) := by
  simp only [MutexGuard.drop]
  by_cases h : (!g.is_panicking && p) = true <;> simp [h]

theorem drop_data {T W : Type} (g : MutexGuard) (p : Bool) (s : Mutex T W) :
    (MutexGuard.drop g p s).1.data = s.data := by
  simp only [MutexGuard.drop]
  split <;> rfl

/-- Closed forms for `try_lock` (proved once, reused by several claims). -/
theorem try_lock_eq {T W : Type} (p : Bool) (s : Mutex T W) :
    Mutex.try_lock p s =
      if s.locked then (TryLockResult.wouldBlock, s)
      else ((if s.poisoned then TryLockResult.poisonedErr { is_panicking := p }
             else TryLockResult.ok { is_panicking := p }),
            { s with locked := true }) := by
  simp only [Mutex.try_lock, MutexGuard.new]
  by_cases hl : s.locked = true <;> by_cases hp : s.poisoned = true <;>
    simp [hl, hp]

/-- Closed form for `poll_lock`. -/
theorem poll_lock_eq {T W : Type} (lw : W) (p : Bool) (s : Mutex T W) :
    Mutex.poll_lock lw p s =
      if s.locked then (Poll.pending, { s with waiters := s.waiters ++ [lw] })
      else (Poll.ready (if s.poisoned then LockResult.poisonedErr { is_panicking := p }
              else LockResult.ok { is_panicking := p }),
            { s with locked := true }) := by
  simp only [Mutex.poll_lock, MutexGuard.new]
  by_cases hl : s.locked = true <;> by_cases hp : s.poisoned = true <;>
    simp [hl, hp]

/-- The combined reachability invariant: at most one live guard, the lock
bit is set exactly when a guard is live, and the waiter queue is empty
whenever the lock is free. -/
def Inv {T W : Type} (s : Sys T W) : Prop :=
  s.guards.length ≤ 1 ∧ (s.m.locked = true ↔ s.guards.length = 1) ∧
    (s.m.locked = false → s.m.waiters = [])

theorem inv_init {T W : Type} (x : T) : Inv (Sys.init (W := W) x) := by
  refine ⟨by simp [Sys.init], by simp [Sys.init, Mutex.new], ?_⟩
  intro _
  simp [Sys.init, Mutex.new]

theorem inv_step {T W : Type} (s : Sys T W) (op : Op W) (h : Inv s) :
    Inv (sysStep s op) := by
  obtain ⟨hlen, hiff, hw⟩ := h
  cases op with
  | tryLockOp p =>
    by_cases hl : s.m.locked = true
    · simp [sysStep, try_lock_eq, hl, Inv, hlen, hiff.mp hl, hw]
    · simp only [Bool.not_eq_true] at hl
      have hg : s.guards.length = 0 := by
        rcases Nat.le_one_iff_eq_zero_or_eq_one.mp hlen with h0 | h1
        · exact h0
        · exact absurd (hiff.mpr h1) (by simp [hl])
      by_cases hp : s.m.poisoned = true <;>
        simp [sysStep, try_lock_eq, hl, hp, Inv, hg]
  | pollLockOp lw p =>
    by_cases hl : s.m.locked = true
    · simp [sysStep, poll_lock_eq, hl, Inv, hlen, hiff.mp hl, hw]
    · simp only [Bool.not_eq_true] at hl
      have hg : s.guards.length = 0 := by
        rcases Nat.le_one_iff_eq_zero_or_eq_one.mp hlen with h0 | h1
        · exact h0
        · exact absurd (hiff.mpr h1) (by simp [hl])
      by_cases hp : s.m.poisoned = true <;>
        simp [sysStep, poll_lock_eq, hl, hp, Inv, hg]
  | dropGuardOp i p =>
    rcases hgs : s.guards with _ | ⟨g0, rest⟩
    · simp [sysStep, hgs, Inv] at hlen hiff hw ⊢
      exact ⟨hiff, hw⟩
    · have hrest : rest = [] := by
        rw [hgs] at hlen
        simp only [List.length_cons] at hlen
        exact List.eq_nil_of_length_eq_zero (Nat.le_zero.mp (Nat.le_of_succ_le_succ hlen))
      subst hrest
      cases i with
      | zero =>
        simp [sysStep, hgs, Inv, drop_locked, drop_waiters]
      | succ j =>
        simp [sysStep, hgs, Inv] at hiff hw ⊢
        exact ⟨hiff, hw⟩
  | lockOp =>
    simpa [sysStep, Mutex.lock, Inv] using ⟨hlen, hiff, hw⟩
  | isPoisonedOp =>
    exact ⟨hlen, hiff, hw⟩

theorem inv_run {T W : Type} (ops : List (Op W)) (s : Sys T W) (h : Inv s) :
    Inv (run ops s) := by
  induction ops generalizing s with
  | nil => exact h
  | cons op ops ih => exact ih (sysStep s op) (inv_step s op h)

/-- Poison can only grow across a single step. -/
theorem poison_mono_step {T W : Type} (s : Sys T W) (op : Op W)
    (h : s.m.poisoned = true) : (sysStep s op).m.poisoned = true := by
  cases op with
  | tryLockOp p =>
    by_cases hl : s.m.locked = true <;> simp [sysStep, try_lock_eq, hl, h]
  | pollLockOp lw p =>
    by_cases hl : s.m.locked = true <;> simp [sysStep, poll_lock_eq, hl, h]
  | dropGuardOp i p =>
    rcases hg : s.guards[i]? with _ | g
    · simpa [sysStep, hg] using h
    · simp [sysStep, hg, drop_poisoned, h]
  | lockOp => simpa [sysStep, Mutex.lock] using h
  | isPoisonedOp => exact h

theorem poison_mono_run {T W : Type} (ops : List (Op W)) (s : Sys T W)
    (h : s.m.poisoned = true) : (run ops s).m.poisoned = true := by
  induction ops generalizing s with
  | nil => exact h
  | cons op ops ih => exact ih (sysStep s op) (poison_mono_step s op h)

/-- Concrete system state used as a witness input: lock held, one live
guard, one registered waiter. -/
def exLockedSys : Sys Nat Nat :=
  { m := { locked := true, poisoned := false, waiters := [3], data := 5 },
    guards := [{ is_panicking := false }] }

/-- Concrete system state used as a witness input: unlocked and poisoned. -/
def exPoisSys : Sys Nat Nat :=
  { m := { locked := false, poisoned := true, waiters := [], data := 0 },
    guards := [] }

/-- C1: Mutual exclusion — along every interleaving of the public operations
starting from `Mutex::new`, at most one `MutexGuard` is live at any instant,
and a guard is live exactly while `locked == true` (so no acquire produces a
new guard while the lock is held). -/
theorem claim_mutual_exclusion {T W : Type} (x : T) (ops : List (Op W)) :
    (run ops (Sys.init x)).guards.length ≤ 1 ∧
      ((run ops (Sys.init x)).m.locked = true ↔
        (run ops (Sys.init x)).guards.length = 1) :=
  ⟨(inv_run ops (Sys.init x) (inv_init x)).1,
   (inv_run ops (Sys.init x) (inv_init x)).2.1⟩

/-- C2: `try_lock` on a locked mutex returns `WouldBlock` and changes no
state (locked, poisoned, waiters and the protected value included); on an
unlocked mutex it sets `locked := true` and returns a guard, wrapped in a
poison error exactly when `poisoned == true`. -/
theorem claim_try_lock {T W : Type} (p : Bool) (s : Mutex T W) :
    Mutex.try_lock p s =
      if s.locked then (TryLockResult.wouldBlock, s)
      else ((if s.poisoned then TryLockResult.poisonedErr { is_panicking := p }
             else TryLockResult.ok { is_panicking := p }),
            { s with locked := true }) :=
  try_lock_eq p s

/-- C3: every poll of an async acquire (`poll_lock`, and `MutexAcquire`'s
`poll`, which delegates to it with no per-request progress state) appends
the supplied wake handle to the waiter queue and returns `Pending` when
`locked == true`, and otherwise behaves exactly as try-acquire, returning
`Ready` with the guard wrapped in a poison error exactly when
`poisoned == true`. -/
theorem claim_poll_lock {T W : Type} (lw : W) (p : Bool) (s : Mutex T W)
    (a : MutexAcquire) :
    Mutex.poll_lock lw p s =
      (if s.locked then (Poll.pending, { s with waiters := s.waiters ++ [lw] })
       else (Poll.ready (if s.poisoned
               then LockResult.poisonedErr { is_panicking := p }
               else LockResult.ok { is_panicking := p }),
             { s with locked := true })) ∧
    MutexAcquire.poll a lw p s = Mutex.poll_lock lw p s :=
  ⟨poll_lock_eq lw p s, rfl⟩

/-- C4: destroying a `MutexGuard` sets `locked := false`, wakes every handle
registered in the waiter queue (all of them) and leaves the queue empty; and
among the public operations, dropping a guard is the only one that can take
`locked` from `true` to `false`. -/
theorem claim_guard_release {T W : Type} (g : MutexGuard) (p : Bool)
    (s : Mutex T W) (sys : Sys T W) (op : Op W) :
    ((MutexGuard.drop g p s).1.locked = false ∧
     (MutexGuard.drop g p s).2 = s.waiters ∧
     (MutexGuard.drop g p s).1.waiters = []) ∧
    (sys.m.locked = true → (sysStep sys op).m.locked = false →
      ∃ i q, op = Op.dropGuardOp i q) := by
  refine ⟨⟨drop_locked g p s, drop_woken g p s, drop_waiters g p s⟩, ?_⟩
  intro hl hl2
  cases op with
  | tryLockOp q => simp [sysStep, try_lock_eq, hl] at hl2
  | pollLockOp lw q => simp [sysStep, poll_lock_eq, hl] at hl2
  | dropGuardOp i q => exact ⟨i, q, rfl⟩
  | lockOp => simp [sysStep, Mutex.lock, hl] at hl2
  | isPoisonedOp => simp [sysStep, hl] at hl2

/-- Witness for C4 at a concrete locked state and a concrete drop step. -/
theorem claim_guard_release_witness :
    ∃ i q, (Op.dropGuardOp 0 false : Op Nat) = Op.dropGuardOp i q :=
  (claim_guard_release (T := Nat) { is_panicking := false } false
      (Mutex.new 0) exLockedSys (Op.dropGuardOp 0 false)).2
    (by decide) (by decide)

/-- C5: a guard records at creation whether the owning context was already
failing; on destruction the poison bit becomes the old bit or-ed with
"not failing at creation but failing now", so a failure already in progress
at acquire time never poisons, while a failure raised between acquire and
release always does. -/
theorem claim_poison_trigger {T W : Type} (p now : Bool) (g : MutexGuard)
    (s s2 : Mutex T W) :
    (MutexGuard.new p s).1.is_panicking = p ∧
    (MutexGuard.drop g now s2).1.poisoned
      = (s2.poisoned || (!g.is_panicking && now)) ∧
    (MutexGuard.drop { is_panicking := true } now s2).1.poisoned = s2.poisoned ∧
    (MutexGuard.drop { is_panicking := false } true s2).1.poisoned = true := by
  refine ⟨rfl, drop_poisoned g now s2, ?_, ?_⟩ <;> simp [drop_poisoned]

/-- C6: poison monotonicity — every single operation preserves
`poisoned == true`, and once `is_poisoned` returns true it returns true
after every further interleaving of operations. -/
theorem claim_poison_monotone {T W : Type} (s : Sys T W) (op : Op W)
    (ops : List (Op W)) :
    (Mutex.is_poisoned s.m = true → Mutex.is_poisoned (sysStep s op).m = true) ∧
    (Mutex.is_poisoned s.m = true → Mutex.is_poisoned (run ops s).m = true) :=
  ⟨fun h => poison_mono_step s op h, fun h => poison_mono_run ops s h⟩

/-- Witness for C6: a poisoned mutex stays poisoned across a step and
across a full acquire/release cycle. -/
theorem claim_poison_monotone_witness :
    Mutex.is_poisoned (sysStep exPoisSys Op.isPoisonedOp).m = true ∧
    Mutex.is_poisoned
      (run [Op.tryLockOp false, Op.dropGuardOp 0 false] exPoisSys).m = true :=
  ⟨(claim_poison_monotone exPoisSys Op.isPoisonedOp
      [Op.tryLockOp false, Op.dropGuardOp 0 false]).1 (by decide),
   (claim_poison_monotone exPoisSys Op.isPoisonedOp
      [Op.tryLockOp false, Op.dropGuardOp 0 false]).2 (by decide)⟩

/-- C7: round trip — `Mutex::new x` is unlocked, unpoisoned, with an empty
waiter queue, and `into_inner` on it returns `Ok x`. -/
theorem claim_round_trip {T W : Type} (x : T) :
    (Mutex.new x : Mutex T W).locked = false ∧
    (Mutex.new x : Mutex T W).poisoned = false ∧
    (Mutex.new x : Mutex T W).waiters = [] ∧
    Mutex.into_inner (Mutex.new x : Mutex T W) = LockResult.ok x :=
  ⟨rfl, rfl, rfl, rfl⟩

/-- C8: poison surfacing on owned access — `into_inner` and `get_mut` wrap
the protected value in a poison error exactly when `poisoned == true`, and
return it plainly exactly when `poisoned == false`; in every case the caller
receives the value. -/
theorem claim_poison_surfacing {T W : Type} (s : Mutex T W) :
    (Mutex.into_inner s = LockResult.poisonedErr s.data ↔ s.poisoned = true) ∧
    (Mutex.into_inner s = LockResult.ok s.data ↔ s.poisoned = false) ∧
    (Mutex.get_mut s = LockResult.poisonedErr s.data ↔ s.poisoned = true) ∧
    (Mutex.get_mut s = LockResult.ok s.data ↔ s.poisoned = false) := by
  by_cases hp : s.poisoned = true <;>
    simp [Mutex.into_inner, Mutex.get_mut, hp]

/-- C9: implicit invariant — in every state reachable from `Mutex::new`,
if the lock is free then the waiter queue is empty. -/
theorem claim_unlocked_no_waiters {T W : Type} (x : T) (ops : List (Op W))
    (h : (run ops (Sys.init x)).m.locked = false) :
    (run ops (Sys.init x)).m.waiters = [] :=
  (inv_run ops (Sys.init x) (inv_init x)).2.2 h

/-- Witness for C9 at a concrete interleaving ending unlocked. -/
theorem claim_unlocked_no_waiters_witness :
    (run ([Op.lockOp] : List (Op Nat)) (Sys.init (0 : Nat))).m.waiters = [] :=
  claim_unlocked_no_waiters 0 [Op.lockOp] (by decide)

/-- C10: frame property of `lock` — it returns the state unchanged, and
polling the returned `MutexAcquire` registers a wake handle exactly when
the lock is currently held. -/
theorem claim_lock_no_effect {T W : Type} (s : Mutex T W) (lw : W) (p : Bool) :
    (Mutex.lock s).2 = s ∧
    (((Mutex.lock s).1.poll lw p s).2.waiters =
      if s.locked then s.waiters ++ [lw] else s.waiters) := by
  refine ⟨rfl, ?_⟩
  by_cases hl : s.locked = true <;>
    simp [MutexAcquire.poll, poll_lock_eq, hl]

end FuturesMutex
